import Mathlib

/-!
Verification development for `tender_ai_tagging_builder.py`, a rule-driven
regex extraction pipeline that tags power-sector tender documents.

The Python source is shallowly embedded: pages are `(pageNumber, text)`
pairs, regex match objects are records of the matched span, the positional
capture groups and the named capture groups, and the regex engine itself is
abstracted as a `compile : String → Nat → Regex` parameter (pattern and
flag word in, a `search`/`finditer` pair out), except for the two literal
patterns used by the amendment processor, which are implemented concretely.
Python exceptions are modelled with `Except PyErr`.
-/

namespace TenderTag

/-- Model of the Python exceptions that the embedded fragments can raise. -/
inductive PyErr where
  | typeErr
  | indexErr
deriving DecidableEq

/-- Left fold over a list in the `Except` monad; the loop body of the Python
`for` loops stops the whole computation at the first raised exception. -/
def foldE (f : β → α → Except PyErr β) : β → List α → Except PyErr β
  | b, [] => Except.ok b
  | b, a :: as =>
    match f b a with
    | Except.ok b2 => foldE f b2 as
    | Except.error e => Except.error e

/-- Whitespace class used by `re.sub(r"\s+", " ", ...)` and `str.strip()`
(ASCII whitespace; the inputs of interest are ASCII). -/
def isWs (c : Char) : Bool :=
  c = ' ' || c = '\t' || c = '\n' || c = '\r' || c = '\x0b' || c = '\x0c'

/-- Collapse every maximal whitespace run to a single space, as
`re.sub(r"\s+", " ", s)` does. -/
def collapseWs : List Char → List Char
  | [] => []
  | c :: cs =>
    let r := collapseWs cs
    if isWs c then
      match r with
      | ' ' :: _ => r
      | _ => ' ' :: r
    else c :: r

/-- Remove leading and trailing whitespace, as `str.strip()` does. -/
def stripWs (l : List Char) : List Char :=
  ((l.dropWhile isWs).reverse.dropWhile isWs).reverse

/-- Embedding of `clean_text` (source lines 50-53): `None` becomes the empty
string, otherwise whitespace runs are collapsed to one space and the ends
are trimmed. -/
def clean_text : Option String → String
  | none => ""
  | some s => String.mk (stripWs (collapseWs s.data))

/-- Model of a Python `re.Match` object: the full matched span (group 0),
the positional groups 1..n in order (`none` = the group did not participate
in the match), and the named-group dictionary. -/
structure Match where
  matched : String
  groups : List (Option String)
  named : List (String × Option String)
deriving DecidableEq

/-- Model of a compiled Python regex: `search` returns the first match in a
string, `finditer` all non-overlapping matches in discovery order. -/
structure Regex where
  search : String → Option Match
  finditer : String → List Match

/-- Python dict assignment `d[k] = v` on an insertion-ordered
association list: overwrite in place if the key exists, else append. -/
def dictSet (d : List (String × String)) (k : String) (v : String) :
    List (String × String) :=
  if d.any (fun kv => kv.1 = k) then
    d.map (fun kv => if kv.1 = k then (k, v) else kv)
  else d ++ [(k, v)]

/-- Merging of two keyword-argument unpackings `f(**d1, **d2)`: Python
raises `TypeError` as soon as a key of `d2` is already bound by `d1`. -/
def mergeKwargs (d1 d2 : List (String × String)) :
    Except PyErr (List (String × String)) :=
  foldE
    (fun acc kv =>
      if acc.any (fun r => r.1 = kv.1) then Except.error PyErr.typeErr
      else Except.ok (acc ++ [kv]))
    d1 d2

/-- Model of Python `str.format` called with no positional arguments and
the keyword mapping `kw`: literal text is copied, `\x7b\x7b` and `\x7d\x7d`
unescape to single braces, a lone closing brace or an unclosed field is a
`ValueError`, a digit-only field is a positional reference (an `IndexError`,
since no positional arguments are passed at the embedded call sites), and
any other field is looked up among the keywords (`KeyError` when absent).
`none` stands for any raised exception, which the caller swallows. -/
def pyFormat (kw : List (String × String)) : List Char → Option (List Char)
  | [] => some []
  | '{' :: '{' :: rest => (pyFormat kw rest).map (fun out => '{' :: out)
  | '}' :: '}' :: rest => (pyFormat kw rest).map (fun out => '}' :: out)
  | '}' :: _ => none
  | '{' :: rest =>
    let fld := rest.takeWhile (fun c => c ≠ '}')
    match hdw : rest.dropWhile (fun c => c ≠ '}') with
    | [] => none
    | _ :: after =>
      if fld = [] then none
      else if fld.all Char.isDigit then none
      else
        match kw.find? (fun kv => kv.1 = String.mk fld) with
        | none => none
        | some kv => (pyFormat kw after).map (fun out => kv.2.data ++ out)
  | c :: rest => (pyFormat kw rest).map (fun out => c :: out)
termination_by l => l.length
decreasing_by
  all_goals simp_wf
  all_goals try omega
  · have hle : ∀ (p : Char → Bool) (l : List Char), (l.dropWhile p).length ≤ l.length := by
      intro p l
      induction l with
      | nil => simp [List.dropWhile]
      | cons a as ih =>
        simp only [List.dropWhile]
        cases hpa : p a
        · simp
        · simp only [List.length_cons]
          omega
    have hle2 := hle (fun c => c ≠ '}') rest
    rw [hdw] at hle2
    simp only [List.length_cons] at hle2 ⊢
    omega

/-- The `fmt_dict` of `render_value`: each positional group keyed by its
zero-based index rendered with `str`, then each named group assigned on
top, every value cleaned. -/
def fmtMapping (m : Match) : List (String × String) :=
  m.named.foldl (fun d kv => dictSet d kv.1 (clean_text kv.2))
    (m.groups.enum.map (fun ig => (toString ig.1, clean_text ig.2)))

/-- Embedding of `render_value` (source lines 176-190).  The source calls
`value_expr.format(**fmt_dict, **\x7bstr(k): v for k, v in fmt_dict.items()\x7d)`,
unpacking the same string-keyed mapping twice; on any exception it falls
back to the first group's cleaned text when the pattern has groups, else to
the cleaned full match. -/
def render_value (value_expr : String) (m : Match) : String :=
  let formatted : Option String :=
    match mergeKwargs (fmtMapping m) ((fmtMapping m).map (fun kv => (kv.1, kv.2))) with
    | Except.error _ => none
    | Except.ok kw => (pyFormat kw value_expr.data).map String.mk
  match formatted with
  | some s => s
  | none =>
    clean_text
      (match m.groups with
       | [] => some m.matched
       | g1 :: _ => g1)

/-- Scan the pages in order and return the page number and match of the
first page on which `rx.search` succeeds (the loop body of `find_first`,
source lines 55-61). -/
def search_pages (rx : Regex) : List (Nat × String) → Option (Nat × Match)
  | [] => none
  | pt :: ps =>
    match rx.search pt.2 with
    | some m => some (pt.1, m)
    | none => search_pages rx ps

/-- Embedding of `find_first` (source lines 55-61): compile the pattern with
the given flag word, then return the first match in page order, or `none`. -/
def find_first (compile : String → Nat → Regex) (pattern : String)
    (pages : List (Nat × String)) (flags : Nat) : Option (Nat × Match) :=
  search_pages (compile pattern flags) pages

/-- Collect `(pageNumber, match)` for every `finditer` hit of every page, in
page order and discovery order (the loop body of `find_all`). -/
def iter_pages (rx : Regex) : List (Nat × String) → List (Nat × Match)
  | [] => []
  | pt :: ps => (rx.finditer pt.2).map (fun m => (pt.1, m)) ++ iter_pages rx ps

/-- Embedding of `find_all` (source lines 63-69). -/
def find_all (compile : String → Nat → Regex) (pattern : String)
    (pages : List (Nat × String)) (flags : Nat) : List (Nat × Match) :=
  iter_pages (compile pattern flags) pages

/-- Kinds of attribute a name can resolve to on the Python `re` module. -/
inductive ReAttr where
  | intAttr (n : Nat)
  | nonIntAttr
deriving DecidableEq

/-- Model of `getattr(re, name, ...)` over the `re` module namespace: the
flag constants and their one-letter aliases resolve to their integer
values, `_MAXCACHE` is a non-flag integer attribute, and the module's
functions and classes are non-integer attributes; any other name is
unbound (`none`), so `getattr` returns its default. -/
def re_getattr (name : String) : Option ReAttr :=
  if name = "IGNORECASE" || name = "I" then some (ReAttr.intAttr 2)
  else if name = "TEMPLATE" || name = "T" then some (ReAttr.intAttr 1)
  else if name = "LOCALE" || name = "L" then some (ReAttr.intAttr 4)
  else if name = "MULTILINE" || name = "M" then some (ReAttr.intAttr 8)
  else if name = "DOTALL" || name = "S" then some (ReAttr.intAttr 16)
  else if name = "UNICODE" || name = "U" then some (ReAttr.intAttr 32)
  else if name = "VERBOSE" || name = "X" then some (ReAttr.intAttr 64)
  else if name = "DEBUG" then some (ReAttr.intAttr 128)
  else if name = "ASCII" || name = "A" then some (ReAttr.intAttr 256)
  else if name = "NOFLAG" then some (ReAttr.intAttr 0)
  else if name = "_MAXCACHE" then some (ReAttr.intAttr 512)
  else if name = "compile" || name = "match" || name = "fullmatch"
       || name = "search" || name = "findall" || name = "finditer"
       || name = "split" || name = "sub" || name = "subn"
       || name = "escape" || name = "purge" || name = "error"
       || name = "Match" || name = "Pattern" then some ReAttr.nonIntAttr
  else none

/-- One step of the flag loop `fl |= getattr(re, f, 0)` (source lines
159-161): an unbound name contributes the default `0`; an integer
attribute is OR-ed in; `int | function` raises `TypeError`. -/
def orFlagStep (fl : Nat) (f : String) : Except PyErr Nat :=
  match re_getattr f with
  | none => Except.ok fl
  | some (ReAttr.intAttr n) => Except.ok (fl ||| n)
  | some ReAttr.nonIntAttr => Except.error PyErr.typeErr

/-- Embedding of the whole flag loop of `run_extractors`. -/
def compileFlags (flags_list : List String) : Except PyErr Nat :=
  foldE orFlagStep 0 flags_list

/-- The integer value `getattr(re, f, 0)` yields when it does not raise. -/
def reIntValue (f : String) : Nat :=
  match re_getattr f with
  | some (ReAttr.intAttr n) => n
  | _ => 0

/-- True when no name in the list resolves to a non-integer `re` attribute,
so the flag loop cannot raise. -/
def flagsOk (flags_list : List String) : Bool :=
  flags_list.all (fun f => decide (re_getattr f ≠ some ReAttr.nonIntAttr))

/-- Bitwise-OR of the integer attribute values of the listed names. -/
def flagsVal (flags_list : List String) : Nat :=
  flags_list.foldl (fun a f => a ||| reIntValue f) 0

/-- One extractor directive as read from the YAML mapping; a `none` field
models a key absent from the dictionary, so the `dict.get` defaults of
`run_extractors` apply.  The Python key `section` is named `sec` here. -/
structure Extractor where
  sec : Option String
  clause : Option String
  parameter : Option String
  unit : Option String
  notes : Option String
  mode : Option String
  pattern : Option String
  value_expr : Option String
  flags : Option (List String)
deriving DecidableEq

def Extractor.secD (e : Extractor) : String := e.sec.getD ("General")

def Extractor.clauseD (e : Extractor) : String := e.clause.getD ("")

def Extractor.parameterD (e : Extractor) : String := e.parameter.getD ("")

def Extractor.unitD (e : Extractor) : String := e.unit.getD ("")

def Extractor.notesD (e : Extractor) : String := e.notes.getD ("")

def Extractor.modeD (e : Extractor) : String := e.mode.getD ("first")

def Extractor.patternD (e : Extractor) : String := e.pattern.getD ("")

def Extractor.value_exprD (e : Extractor) : String := e.value_expr.getD ("\x7b0\x7d")

def Extractor.flagsD (e : Extractor) : List String := e.flags.getD (["IGNORECASE"])

/-- One output row of the AI_Tagging_Master sheet (the `TagRow` dataclass). -/
structure TagRow where
  Section : String
  ClauseRef : String
  Parameter : String
  Value : String
  Unit : String
  Notes : String
  SourcePage : Nat
deriving DecidableEq

/-- Build the `TagRow` appended for one match of a directive. -/
def mk_row (ext : Extractor) (m : Match) (pn : Nat) : TagRow :=
  { Section := ext.secD, ClauseRef := ext.clauseD, Parameter := ext.parameterD,
    Value := render_value ext.value_exprD m, Unit := ext.unitD,
    Notes := ext.notesD, SourcePage := pn }

/-- Rows produced for one directive once its flag word `fl` is known
(the mode branch of `run_extractors`, source lines 163-173): mode `"all"`
emits one row per `find_all` hit; any other mode takes `find_first` and
emits one row when a match exists, none otherwise. -/
def rows_of (compile : String → Nat → Regex) (pages : List (Nat × String))
    (ext : Extractor) (fl : Nat) : List TagRow :=
  if ext.modeD = "all" then
    (find_all compile ext.patternD pages fl).map (fun pm => mk_row ext pm.2 pm.1)
  else
    match find_first compile ext.patternD pages fl with
    | some (pn, m) => [mk_row ext m pn]
    | none => []

/-- Per-directive body of `run_extractors`: compile the flags (which can
raise) and then search per the mode. -/
def extractor_rows (compile : String → Nat → Regex) (pages : List (Nat × String))
    (ext : Extractor) : Except PyErr (List TagRow) :=
  match compileFlags ext.flagsD with
  | Except.ok fl => Except.ok (rows_of compile pages ext fl)
  | Except.error e => Except.error e

/-- Embedding of `run_extractors` (source lines 133-174): the directives
are processed in declaration order, each appending its rows to the shared
result list; an exception aborts the whole call. -/
def run_extractors (compile : String → Nat → Regex) (pages : List (Nat × String))
    (exts : List Extractor) : Except PyErr (List TagRow) :=
  foldE
    (fun acc ext =>
      match extractor_rows compile pages ext with
      | Except.ok rows => Except.ok (acc ++ rows)
      | Except.error e => Except.error e)
    [] exts

/-- Rows one directive contributes when its flag loop does not raise. -/
def directive_rows (compile : String → Nat → Regex) (pages : List (Nat × String))
    (ext : Extractor) : List TagRow :=
  rows_of compile pages ext (flagsVal ext.flagsD)

/-- Embedding of `upsert_bid_info` (source lines 207-215) on the BID_INFO
table, one `(Field, Value)` row per list entry: for each mapping pair, if
some row already has the field, every such row's value is overwritten
(`df.loc[df["Field"]==k, "Value"] = v`), else a new row is appended. -/
def upsert_bid_info (df : List (String × String)) (mapping : List (String × String)) :
    List (String × String) :=
  mapping.foldl
    (fun acc kv =>
      if acc.any (fun r => r.1 = kv.1) then
        acc.map (fun r => if r.1 = kv.1 then (r.1, kv.2) else r)
      else acc ++ [kv])
    df

/-- Flag word `re.IGNORECASE | re.DOTALL | re.MULTILINE` used for header
fields (source line 290). -/
def bidInfoFlags : Nat := 2 ||| 16 ||| 8

/-- Embedding of the header-field loop of `main` (source lines 289-291):
for each `(field, pattern)` of `bid_info_map` in order, search all pages
and store the cleaned text of capture group 1, or the empty string when no
page matches.  `m.group(1)` raises `IndexError` when the compiled pattern
declares no capture group. -/
def bid_info_extract (compile : String → Nat → Regex)
    (bid_info_map : List (String × String)) (pages : List (Nat × String)) :
    Except PyErr (List (String × String)) :=
  foldE
    (fun acc fp =>
      match find_first compile fp.2 pages bidInfoFlags with
      | some (_, m) =>
        match m.groups with
        | [] => Except.error PyErr.indexErr
        | g1 :: _ => Except.ok (acc ++ [(fp.1, clean_text g1)])
      | none => Except.ok (acc ++ [(fp.1, "")]))
    [] bid_info_map

/-- Embedding of the defaults loop of `main` (source lines 293-295):
`bid_info_values.setdefault(k, v)` inserts the default only when the key is
absent from the mapping. -/
def apply_defaults (vals : List (String × String)) (defaults : List (String × String)) :
    List (String × String) :=
  defaults.foldl
    (fun acc kv => if acc.any (fun r => r.1 = kv.1) then acc else acc ++ [kv])
    vals

/-- Header-field extraction followed by the defaults pass, as `main`
performs it (source lines 287-295). -/
def build_bid_info (compile : String → Nat → Regex)
    (bid_info_map : List (String × String)) (defaults : List (String × String))
    (pages : List (Nat × String)) : Except PyErr (List (String × String)) :=
  match bid_info_extract compile bid_info_map pages with
  | Except.ok vals => Except.ok (apply_defaults vals defaults)
  | Except.error e => Except.error e

/-- Value the header loop stores for one field when its group-1 access
does not raise: group 1's cleaned text on a match, `""` on no match. -/
def bid_field_value (compile : String → Nat → Regex) (pages : List (Nat × String))
    (pattern : String) : String :=
  match find_first compile pattern pages bidInfoFlags with
  | some (_, m) => clean_text (m.groups.headD none)
  | none => ""

/-- Return the first position (suffix-wise, left to right, including the
empty suffix) at which `tryAt` matches, as `re`'s leftmost-match search
does; the result is the matched character span. -/
def firstMatchFrom (tryAt : List Char → Option (List Char)) :
    List Char → Option (List Char)
  | [] => tryAt []
  | c :: cs =>
    match tryAt (c :: cs) with
    | some r => some r
    | none => firstMatchFrom tryAt cs

/-- All non-overlapping matches in discovery order: scan left to right and
resume after the end of each match, as `finditer` does for patterns that
cannot match the empty string. -/
def allMatchesFrom (tryAt : List Char → Option (List Char)) :
    List Char → List (List Char)
  | [] => []
  | c :: cs =>
    match tryAt (c :: cs) with
    | some [] => allMatchesFrom tryAt cs
    | some (r :: rs) => (r :: rs) :: allMatchesFrom tryAt (cs.drop rs.length)
    | none => allMatchesFrom tryAt cs
termination_by l => l.length
decreasing_by
  all_goals simp_wf
  all_goals omega

/-- Separator class (dash, slash or dot) of the date pattern. -/
def isDateSep (c : Char) : Bool := c = '-' || c = '/' || c = '.'

/-- Exactly `n` ASCII digits, returning them and the rest of the input. -/
def matchDigits (n : Nat) (cs : List Char) : Option (List Char × List Char) :=
  let pre := cs.take n
  if pre.length = n && pre.all Char.isDigit then some (pre, cs.drop n) else none

/-- The terminal `\d\x7b2,4\x7d` of the date pattern, matched greedily: four
digits if available, else three, else two. -/
def dateYear (cs : List Char) : Option (List Char) :=
  match matchDigits 4 cs with
  | some p => some p.1
  | none =>
    match matchDigits 3 cs with
    | some p => some p.1
    | none => (matchDigits 2 cs).map (fun p => p.1)

/-- Try the date pattern at the current position with the day field taking
`n1` digits and the month field `n2` digits. -/
def dateTry (n1 n2 : Nat) (cs : List Char) : Option (List Char) :=
  match matchDigits n1 cs with
  | none => none
  | some (p1, r1) =>
    match r1 with
    | [] => none
    | s1 :: r2 =>
      if isDateSep s1 then
        match matchDigits n2 r2 with
        | none => none
        | some (p2, r3) =>
          match r3 with
          | [] => none
          | s2 :: r4 =>
            if isDateSep s2 then
              (dateYear r4).map (fun p3 => p1 ++ s1 :: p2 ++ s2 :: p3)
            else none
      else none

/-- The full date pattern (one-or-two digits, separator, one-or-two
digits, separator, two-to-four digits, all in one capture group) anchored
at the current position, with the greedy backtracking order of the `re` engine:
two-digit fields are tried before one-digit fields, the later field
backtracking first. -/
def dateAtPos (cs : List Char) : Option (List Char) :=
  match dateTry 2 2 cs with
  | some r => some r
  | none =>
    match dateTry 2 1 cs with
    | some r => some r
    | none =>
      match dateTry 1 2 cs with
      | some r => some r
      | none => dateTry 1 1 cs

/-- Wrap a whole-pattern span as a `re.Match` whose single capture group is
the whole span, as both literal patterns of `append_amendments` produce. -/
def spanMatch (p : List Char) : Match :=
  { matched := String.mk p, groups := [some (String.mk p)], named := [] }

/-- Concrete model of the compiled date regex of `append_amendments`. -/
def dateRegex : Regex :=
  { search := fun t => (firstMatchFrom dateAtPos t.data).map spanMatch,
    finditer := fun t => (allMatchesFrom dateAtPos t.data).map spanMatch }

/-- Case-insensitive ASCII comparison of a literal against the head of the
input; returns the input's own characters (original case) on success. -/
def ciStarts : List Char → List Char → Option (List Char)
  | [], _ => some []
  | _ :: _, [] => none
  | p :: ps, c :: cs =>
    if p.toLower = c.toLower then (ciStarts ps cs).map (fun r => c :: r)
    else none

/-- The alternation `(Corrigendum|Addendum|Amendment)` anchored at the
current position, alternatives tried in declaration order, compiled with
`re.IGNORECASE` (the `find_first` default used at this call site). -/
def labelAtPos (cs : List Char) : Option (List Char) :=
  match ciStarts ("Corrigendum".data) cs with
  | some r => some r
  | none =>
    match ciStarts ("Addendum".data) cs with
    | some r => some r
    | none => ciStarts ("Amendment".data) cs

/-- Concrete model of the compiled label regex of `append_amendments`. -/
def labelRegex : Regex :=
  { search := fun t => (firstMatchFrom labelAtPos t.data).map spanMatch,
    finditer := fun t => (allMatchesFrom labelAtPos t.data).map spanMatch }

/-- The date pattern literal of source line 228. -/
def datePatternStr : String :=
  "(\\d\x7b1,2\x7d[-/\\.]\\d\x7b1,2\x7d[-/\\.]\\d\x7b2,4\x7d)"

/-- The label pattern literal of source line 230. -/
def labelPatternStr : String := "(Corrigendum|Addendum|Amendment)"

/-- Concrete regex engine for the two literal patterns that
`append_amendments` compiles; no other pattern reaches this engine. -/
def amendCompile (pattern : String) (_flags : Nat) : Regex :=
  if pattern = datePatternStr then dateRegex
  else if pattern = labelPatternStr then labelRegex
  else { search := fun _ => none, finditer := fun _ => [] }

/-- Python `m.group(1)` for a match whose group 1 exists and participated,
as both literal patterns of `append_amendments` guarantee (each wraps its
whole body in one group). -/
def group1D (m : Match) : String := ((m.groups.headD none).getD (""))

/-- One row of the AmendmentTracker sheet. -/
structure AmendRow where
  AmendmentType : String
  FileName : String
  Date : String
  Notes : String
  Pages : Nat
deriving DecidableEq

/-- The row `append_amendments` builds for one document, given its base
file name and its extracted pages (source lines 223-239): the label
defaults to `"Corrigendum/Addendum"` and is replaced by the cleaned group 1
of the first label-pattern match when one exists; the date is group 1 of
the first date-pattern match, else `""`. -/
def amend_row (name : String) (pages : List (Nat × String)) : AmendRow :=
  let date_found :=
    match find_first amendCompile datePatternStr pages 2 with
    | some (_, m) => group1D m
    | none => ""
  let label :=
    match find_first amendCompile labelPatternStr pages 2 with
    | some (_, m2) => clean_text (some (group1D m2))
    | none => "Corrigendum/Addendum"
  { AmendmentType := label, FileName := name, Date := date_found,
    Notes := "", Pages := pages.length }

/-- Embedding of `append_amendments` (source lines 221-240), taking each
document as its base file name plus the page list its reader produced. -/
def append_amendments (docs : List (String × List (Nat × String))) : List AmendRow :=
  docs.map (fun d => amend_row d.1 d.2)

/-- True when `t` contains `pat` as a substring up to ASCII case folding:
some position `i` of `t` starts with the case-folded image of `pat`. -/
def hasCIsub (pat t : String) : Bool :=
  (List.range (t.data.length + 1)).any
    (fun i => decide
      (((t.data.drop i).take pat.data.length).map Char.toLower = pat.data.map Char.toLower))

/-- A regex engine that never matches, used to evaluate the header-field
defaults pass on a field whose pattern matches nothing. -/
def c1NoMatch : String → Nat → Regex :=
  fun _ _ => { search := fun _ => none, finditer := fun _ => [] }

/-- Two groupless matches for the concrete all-mode run. -/
def c3m1 : Match := { matched := ("a"), groups := [], named := [] }

def c3m2 : Match := { matched := ("b"), groups := [], named := [] }

/-- A concrete `finditer` with two hits on the text `"xy"`. -/
def c3fi : String → List Match := fun t => if t = ("xy") then [c3m1, c3m2] else []

def c3Rx : String → Nat → Regex :=
  fun _ _ => { search := fun t => (c3fi t).head?, finditer := c3fi }

def c3Ext : Extractor :=
  { sec := some ("S"), clause := none, parameter := none, unit := none,
    notes := none, mode := some ("all"), pattern := some ("p"),
    value_expr := none, flags := none }

def c3Pages : List (Nat × String) := [(1, ("xy")), (2, ("zz")), (3, ("xy"))]

/-- One groupless match on the text `"hh"` for the first-mode run. -/
def c4m : Match := { matched := ("hit"), groups := [], named := [] }

def c4fi : String → List Match := fun t => if t = ("hh") then [c4m] else []

def c4Rx : String → Nat → Regex :=
  fun _ _ => { search := fun t => (c4fi t).head?, finditer := c4fi }

def c4Ext : Extractor :=
  { sec := none, clause := none, parameter := none, unit := none,
    notes := none, mode := none, pattern := some ("p"),
    value_expr := none, flags := none }

/-- A regex engine whose every search yields a match with no capture
groups, as a zero-group pattern produces. -/
def c8ZeroGroup : String → Nat → Regex :=
  fun _ _ => { search := fun _ => some { matched := ("x"), groups := [], named := [] },
               finditer := fun _ => [{ matched := ("x"), groups := [], named := [] }] }

def c10Rx : String → Nat → Regex :=
  fun _ _ => { search := fun _ => none, finditer := fun _ => [] }

/-- A directive whose mode is the non-lowercase string `"ALL"`. -/
def c10Ext : Extractor :=
  { sec := none, clause := none, parameter := none, unit := none,
    notes := none, mode := some ("ALL"), pattern := some ("p"),
    value_expr := none, flags := none }

theorem search_pages_eq_none (rx : Regex) (pages : List (Nat × String)) :
    search_pages rx pages = none ↔ ∀ pt ∈ pages, rx.search pt.2 = none := by
  induction pages with
  | nil => simp [search_pages]
  | cons pt ps ih =>
    simp only [search_pages]
    cases hs : rx.search pt.2 with
    | some m => simp [hs]
    | none =>
      simp only [List.mem_cons]
      constructor
      · intro h q hq
        rcases hq with hq | hq
        · rw [hq]; exact hs
        · exact (ih.mp h) q hq
      · intro h
        exact ih.mpr (fun q hq => h q (Or.inr hq))

theorem search_pages_eq_some (rx : Regex) (pages : List (Nat × String))
    (pn : Nat) (m : Match) (h : search_pages rx pages = some (pn, m)) :
    ∃ pre text post, pages = pre ++ (pn, text) :: post
      ∧ (∀ q ∈ pre, rx.search q.2 = none) ∧ rx.search text = some m := by
  induction pages with
  | nil => simp [search_pages] at h
  | cons pt ps ih =>
    obtain ⟨a, b⟩ := pt
    simp only [search_pages] at h
    cases hs : rx.search b with
    | some m0 =>
      rw [hs] at h
      simp only [Option.some_inj] at h
      obtain ⟨h1, h2⟩ := Prod.mk.injEq .. ▸ h
      refine ⟨[], b, ps, ?_, ?_, ?_⟩
      · simp [← h1]
      · simp
      · rw [hs, h2]
    | none =>
      rw [hs] at h
      obtain ⟨pre, text, post, hsplit, hpre, hfound⟩ := ih h
      refine ⟨(a, b) :: pre, text, post, by simp [hsplit], ?_, hfound⟩
      intro q hq
      rcases List.mem_cons.mp hq with hq | hq
      · rw [hq]; exact hs
      · exact hpre q hq

theorem iter_pages_length (rx : Regex) (pages : List (Nat × String)) :
    (iter_pages rx pages).length =
      (pages.map (fun pt => (rx.finditer pt.2).length)).sum := by
  induction pages with
  | nil => simp [iter_pages]
  | cons pt ps ih => simp [iter_pages, ih]

theorem iter_pages_mem (rx : Regex) (pages : List (Nat × String))
    (pn : Nat) (m : Match) (h : (pn, m) ∈ iter_pages rx pages) :
    ∃ text, (pn, text) ∈ pages ∧ m ∈ rx.finditer text := by
  induction pages with
  | nil => simp [iter_pages] at h
  | cons pt ps ih =>
    obtain ⟨a, b⟩ := pt
    simp only [iter_pages, List.mem_append, List.mem_map] at h
    rcases h with ⟨m0, hm0, heq⟩ | h
    · simp only [Prod.mk.injEq] at heq
      obtain ⟨h1, h2⟩ := heq
      refine ⟨b, ?_, h2 ▸ hm0⟩
      simp [← h1]
    · obtain ⟨text, htext, hm⟩ := ih h
      exact ⟨text, List.mem_cons.mpr (Or.inr htext), hm⟩

theorem foldE_orFlag_ok (fs : List String) :
    ∀ a : Nat, flagsOk fs = true →
      foldE orFlagStep a fs = Except.ok (fs.foldl (fun x f => x ||| reIntValue f) a) := by
  induction fs with
  | nil => intro a _; simp [foldE]
  | cons f fs ih =>
    intro a hok
    simp only [flagsOk, List.all_cons, Bool.and_eq_true, decide_eq_true_eq] at hok
    simp only [foldE, orFlagStep, List.foldl_cons]
    cases hf : re_getattr f with
    | none =>
      have : reIntValue f = 0 := by simp [reIntValue, hf]
      rw [this, Nat.or_zero]
      exact ih a hok.2
    | some attr =>
      cases attr with
      | intAttr n =>
        have : reIntValue f = n := by simp [reIntValue, hf]
        rw [this]
        exact ih (a ||| n) hok.2
      | nonIntAttr => exact absurd hf hok.1

theorem compileFlags_ok (fs : List String) (hok : flagsOk fs = true) :
    compileFlags fs = Except.ok (flagsVal fs) :=
  foldE_orFlag_ok fs 0 hok

theorem foldE_orFlag_skip (fs1 : List String) (f : String) (fs2 : List String)
    (hf : re_getattr f = none) :
    ∀ a : Nat, foldE orFlagStep a (fs1 ++ f :: fs2) = foldE orFlagStep a (fs1 ++ fs2) := by
  induction fs1 with
  | nil =>
    intro a
    simp only [List.nil_append, foldE, orFlagStep, hf]
  | cons g gs ih =>
    intro a
    simp only [List.cons_append, foldE]
    cases orFlagStep a g with
    | ok a2 => exact ih a2
    | error e => rfl

theorem extractor_rows_ok (compile : String → Nat → Regex)
    (pages : List (Nat × String)) (ext : Extractor)
    (hok : flagsOk ext.flagsD = true) :
    extractor_rows compile pages ext =
      Except.ok (rows_of compile pages ext (flagsVal ext.flagsD)) := by
  simp [extractor_rows, compileFlags_ok ext.flagsD hok]

theorem run_extractors_append (compile : String → Nat → Regex)
    (pages : List (Nat × String)) (exts : List Extractor)
    (hok : ∀ e ∈ exts, flagsOk e.flagsD = true) :
    ∀ acc : List TagRow,
      foldE
        (fun acc ext =>
          match extractor_rows compile pages ext with
          | Except.ok rows => Except.ok (acc ++ rows)
          | Except.error e => Except.error e)
        acc exts = Except.ok (acc ++ exts.flatMap (directive_rows compile pages)) := by
  induction exts with
  | nil => intro acc; simp [foldE]
  | cons e es ih =>
    intro acc
    have he : flagsOk e.flagsD = true := hok e (List.mem_cons_self e es)
    have hes : ∀ x ∈ es, flagsOk x.flagsD = true :=
      fun x hx => hok x (List.mem_cons.mpr (Or.inr hx))
    simp only [foldE, extractor_rows_ok compile pages e he]
    rw [ih hes (acc ++ rows_of compile pages e (flagsVal e.flagsD))]
    simp [directive_rows, List.flatMap_cons, List.append_assoc]

theorem run_extractors_ok (compile : String → Nat → Regex)
    (pages : List (Nat × String)) (exts : List Extractor)
    (hok : ∀ e ∈ exts, flagsOk e.flagsD = true) :
    run_extractors compile pages exts =
      Except.ok (exts.flatMap (directive_rows compile pages)) := by
  have := run_extractors_append compile pages exts hok []
  simpa [run_extractors] using this

theorem dictSet_ne_nil (d : List (String × String)) (k v : String) (hd : d ≠ []) :
    dictSet d k v ≠ [] := by
  simp only [dictSet]
  split
  · simpa using hd
  · simp

theorem fmt_dict_ne_nil (l : List (String × Option String)) :
    ∀ d : List (String × String), d ≠ [] →
      l.foldl (fun d kv => dictSet d kv.1 (clean_text kv.2)) d ≠ [] := by
  induction l with
  | nil => intro d hd; simpa using hd
  | cons kv l ih =>
    intro d hd
    simp only [List.foldl_cons]
    exact ih _ (dictSet_ne_nil d kv.1 (clean_text kv.2) hd)

theorem mergeKwargs_self_error (kv : String × String) (l : List (String × String)) :
    mergeKwargs (kv :: l) ((kv :: l).map (fun r => (r.1, r.2))) =
      Except.error PyErr.typeErr := by
  simp [mergeKwargs, foldE]

theorem upsert_single_eq (df : List (String × String)) (f v : String) :
    upsert_bid_info df [(f, v)] =
      if df.any (fun r => r.1 = f) then
        df.map (fun r => if r.1 = f then (r.1, v) else r)
      else df ++ [(f, v)] := rfl

theorem upsert_cons (df : List (String × String)) (kv : String × String)
    (mp : List (String × String)) :
    upsert_bid_info df (kv :: mp) = upsert_bid_info (upsert_bid_info df [kv]) mp := rfl

theorem upd_map_keys (df : List (String × String)) (f v : String) :
    (df.map (fun r => if r.1 = f then (r.1, v) else r)).map Prod.fst = df.map Prod.fst := by
  induction df with
  | nil => rfl
  | cons r rest ih =>
    simp only [List.map_cons, ih, List.cons.injEq, and_true]
    split <;> rfl

theorem not_key_of_any_false (df : List (String × String)) (f : String)
    (h : df.any (fun r => r.1 = f) = false) : f ∉ df.map Prod.fst := by
  intro hmem
  obtain ⟨r, hr, hr1⟩ := List.mem_map.mp hmem
  have htrue : df.any (fun r => r.1 = f) = true := by
    simp only [List.any_eq_true]
    exact ⟨r, hr, by simp [hr1]⟩
  rw [htrue] at h
  simp at h

theorem upsert_single_nodup (df : List (String × String)) (f v : String)
    (hdf : (df.map Prod.fst).Nodup) :
    ((upsert_bid_info df [(f, v)]).map Prod.fst).Nodup := by
  rw [upsert_single_eq]
  cases ha : df.any (fun r => r.1 = f) with
  | true =>
    rw [if_pos rfl, upd_map_keys]
    exact hdf
  | false =>
    have hnk := not_key_of_any_false df f ha
    rw [if_neg (by simp)]
    simp only [List.map_append, List.map_cons, List.map_nil]
    rw [List.nodup_append]
    refine ⟨hdf, List.nodup_singleton _, ?_⟩
    intro x hx hx2
    simp only [List.mem_singleton] at hx2
    exact hnk (hx2 ▸ hx)

theorem upsert_keys_nodup (mp : List (String × String)) :
    ∀ df : List (String × String), (df.map Prod.fst).Nodup →
      ((upsert_bid_info df mp).map Prod.fst).Nodup := by
  induction mp with
  | nil => intro df h; exact h
  | cons kv mp ih =>
    intro df h
    rw [upsert_cons]
    exact ih _ (upsert_single_nodup df kv.1 kv.2 h)

theorem filter_eq_nil_of_no_key (df : List (String × String)) (f : String)
    (h : f ∉ df.map Prod.fst) :
    df.filter (fun r => decide (r.1 = f)) = [] := by
  rw [List.filter_eq_nil_iff]
  intro r hr
  simp only [decide_eq_true_eq]
  intro hrf
  exact h (List.mem_map.mpr ⟨r, hr, hrf⟩)

theorem filter_upd_map (df : List (String × String)) (f v : String)
    (hdf : (df.map Prod.fst).Nodup) (ha : df.any (fun r => r.1 = f) = true) :
    (df.map (fun r => if r.1 = f then (r.1, v) else r)).filter
      (fun r => decide (r.1 = f)) = [(f, v)] := by
  induction df with
  | nil => simp at ha
  | cons r rest ih =>
    obtain ⟨k, w⟩ := r
    simp only [List.map_cons, List.nodup_cons] at hdf
    by_cases hkf : k = f
    · subst hkf
      have hfilter : (rest.map (fun r => if r.1 = k then (r.1, v) else r)).filter
          (fun r => decide (r.1 = k)) = [] := by
        apply filter_eq_nil_of_no_key
        rw [upd_map_keys]
        exact hdf.1
      simp [List.filter_cons, hfilter]
    · have ha2 : rest.any (fun r => r.1 = f) = true := by
        simp only [List.any_cons, Bool.or_eq_true] at ha
        rcases ha with h | h
        · exact absurd (of_decide_eq_true h) hkf
        · exact h
      simp only [List.map_cons, List.filter_cons]
      rw [if_neg (show ¬((k, w).1 = f) from hkf)]
      simp only [decide_eq_true_eq]
      rw [if_neg hkf]
      exact ih hdf.2 ha2

theorem upsert_single_filter (f v : String) (df : List (String × String))
    (hdf : (df.map Prod.fst).Nodup) :
    (upsert_bid_info df [(f, v)]).filter (fun r => decide (r.1 = f)) = [(f, v)] := by
  rw [upsert_single_eq]
  cases ha : df.any (fun r => r.1 = f) with
  | true =>
    rw [if_pos rfl]
    exact filter_upd_map df f v hdf ha
  | false =>
    rw [if_neg (by simp)]
    rw [List.filter_append, filter_eq_nil_of_no_key df f (not_key_of_any_false df f ha)]
    simp

theorem bid_extract_error (compile : String → Nat → Regex)
    (pages : List (Nat × String)) (map : List (String × String))
    (hbad : ∃ fp ∈ map, ∃ pn m,
      find_first compile fp.2 pages bidInfoFlags = some (pn, m) ∧ m.groups = []) :
    ∀ acc : List (String × String),
      foldE
        (fun acc fp =>
          match find_first compile fp.2 pages bidInfoFlags with
          | some (_, m) =>
            match m.groups with
            | [] => Except.error PyErr.indexErr
            | g1 :: _ => Except.ok (acc ++ [(fp.1, clean_text g1)])
          | none => Except.ok (acc ++ [(fp.1, "")]))
        acc map = Except.error PyErr.indexErr := by
  induction map with
  | nil => obtain ⟨fp, hfp, _⟩ := hbad; simp at hfp
  | cons fp0 rest ih =>
    intro acc
    obtain ⟨fp, hfp, pn, m, hff, hg⟩ := hbad
    simp only [foldE]
    cases hff0 : find_first compile fp0.2 pages bidInfoFlags with
    | some pm =>
      obtain ⟨pn0, m0⟩ := pm
      dsimp only
      cases hg0 : m0.groups with
      | nil => rfl
      | cons g1 gs =>
        dsimp only
        rcases List.mem_cons.mp hfp with heq | hmem
        · subst heq
          rw [hff0] at hff
          simp only [Option.some_inj, Prod.mk.injEq] at hff
          rw [← hff.2] at hg
          rw [hg] at hg0
          cases hg0
        · exact ih ⟨fp, hmem, pn, m, hff, hg⟩ _
    | none =>
      dsimp only
      rcases List.mem_cons.mp hfp with heq | hmem
      · subst heq
        rw [hff0] at hff
        cases hff
      · exact ih ⟨fp, hmem, pn, m, hff, hg⟩ _

theorem bid_extract_ok (compile : String → Nat → Regex)
    (pages : List (Nat × String)) (map : List (String × String))
    (hgood : ∀ fp ∈ map, ∀ pn m,
      find_first compile fp.2 pages bidInfoFlags = some (pn, m) → m.groups ≠ []) :
    ∀ acc : List (String × String),
      foldE
        (fun acc fp =>
          match find_first compile fp.2 pages bidInfoFlags with
          | some (_, m) =>
            match m.groups with
            | [] => Except.error PyErr.indexErr
            | g1 :: _ => Except.ok (acc ++ [(fp.1, clean_text g1)])
          | none => Except.ok (acc ++ [(fp.1, "")]))
        acc map =
      Except.ok (acc ++ map.map (fun fp => (fp.1, bid_field_value compile pages fp.2))) := by
  induction map with
  | nil => intro acc; simp [foldE]
  | cons fp0 rest ih =>
    intro acc
    have hrest : ∀ fp ∈ rest, ∀ pn m,
        find_first compile fp.2 pages bidInfoFlags = some (pn, m) → m.groups ≠ [] :=
      fun fp hfp => hgood fp (List.mem_cons.mpr (Or.inr hfp))
    simp only [foldE]
    cases hff0 : find_first compile fp0.2 pages bidInfoFlags with
    | some pm =>
      obtain ⟨pn0, m0⟩ := pm
      dsimp only
      cases hg0 : m0.groups with
      | nil =>
        exact absurd hg0 (hgood fp0 (List.mem_cons_self fp0 rest) pn0 m0 hff0)
      | cons g1 gs =>
        dsimp only
        rw [ih hrest (acc ++ [(fp0.1, clean_text g1)])]
        have hv : bid_field_value compile pages fp0.2 = clean_text g1 := by
          simp [bid_field_value, hff0, hg0]
        simp [hv, List.append_assoc]
    | none =>
      dsimp only
      rw [ih hrest (acc ++ [(fp0.1, "")])]
      have hv : bid_field_value compile pages fp0.2 = "" := by
        simp [bid_field_value, hff0]
      simp [hv, List.append_assoc]

theorem ciStarts_isSome_iff (p : List Char) :
    ∀ cs : List Char, (ciStarts p cs).isSome = true ↔
      (cs.take p.length).map Char.toLower = p.map Char.toLower := by
  induction p with
  | nil => intro cs; simp [ciStarts]
  | cons x xs ih =>
    intro cs
    cases cs with
    | nil => simp [ciStarts]
    | cons c cs =>
      simp only [ciStarts, List.length_cons, List.take_succ_cons, List.map_cons,
        List.cons.injEq]
      by_cases hxc : x.toLower = c.toLower
      · rw [if_pos hxc]
        cases hcs : ciStarts xs cs with
        | none =>
          have hno : ¬((cs.take xs.length).map Char.toLower = xs.map Char.toLower) := by
            intro h2
            have hsome := (ih cs).mpr h2
            rw [hcs] at hsome
            simp at hsome
          constructor
          · intro h
            simp [hcs] at h
          · rintro ⟨h1, h2⟩
            exact absurd h2 hno
        | some r =>
          have hyes := (ih cs).mp (by rw [hcs]; rfl)
          constructor
          · intro h
            exact ⟨hxc.symm, hyes⟩
          · intro h
            rfl
      · rw [if_neg hxc]
        constructor
        · intro h
          simp at h
        · rintro ⟨h1, h2⟩
          exact absurd h1.symm hxc

theorem firstMatchFrom_eq_none_iff (tryAt : List Char → Option (List Char)) :
    ∀ cs : List Char, firstMatchFrom tryAt cs = none ↔ ∀ i, tryAt (cs.drop i) = none := by
  intro cs
  induction cs with
  | nil =>
    simp only [firstMatchFrom, List.drop_nil]
    exact ⟨fun h i => h, fun h => h 0⟩
  | cons c cs ih =>
    simp only [firstMatchFrom]
    cases ht : tryAt (c :: cs) with
    | some r =>
      constructor
      · intro h; cases h
      · intro h
        have h0 := h 0
        simp only [List.drop_zero] at h0
        rw [ht] at h0
        cases h0
    | none =>
      rw [ih]
      constructor
      · intro h i
        cases i with
        | zero => simpa using ht
        | succ j => simpa using h j
      · intro h i
        simpa using h (i + 1)

theorem labelAtPos_eq_none (cs : List Char)
    (h1 : ciStarts (("Corrigendum").data) cs = none)
    (h2 : ciStarts (("Addendum").data) cs = none)
    (h3 : ciStarts (("Amendment").data) cs = none) : labelAtPos cs = none := by
  simp [labelAtPos, h1, h2, h3]

theorem hasCIsub_false_none (pat t : String) (hne : pat.data ≠ [])
    (h : hasCIsub pat t = false) (i : Nat) :
    ciStarts pat.data (t.data.drop i) = none := by
  by_cases hi : i ≤ t.data.length
  · have hmem : i ∈ List.range (t.data.length + 1) := List.mem_range.mpr (by omega)
    have hx : ¬(((t.data.drop i).take pat.data.length).map Char.toLower
        = pat.data.map Char.toLower) := by
      intro heq
      have htrue : hasCIsub pat t = true := by
        simp only [hasCIsub, List.any_eq_true]
        exact ⟨i, hmem, by simpa using heq⟩
      rw [htrue] at h
      simp at h
    cases hcs : ciStarts pat.data (t.data.drop i) with
    | none => rfl
    | some r =>
      have hs : (ciStarts pat.data (t.data.drop i)).isSome = true := by rw [hcs]; rfl
      exact absurd ((ciStarts_isSome_iff pat.data (t.data.drop i)).mp hs) hx
  · have hdrop : t.data.drop i = [] := List.drop_eq_nil_of_le (by omega)
    rw [hdrop]
    cases hp : pat.data with
    | nil => exact absurd hp hne
    | cons a as => rfl

theorem labelRegex_search_none (t : String)
    (h1 : hasCIsub ("Corrigendum") t = false)
    (h2 : hasCIsub ("Addendum") t = false)
    (h3 : hasCIsub ("Amendment") t = false) :
    labelRegex.search t = none := by
  have hfm : firstMatchFrom labelAtPos t.data = none := by
    rw [firstMatchFrom_eq_none_iff]
    intro i
    apply labelAtPos_eq_none
    · exact hasCIsub_false_none ("Corrigendum") t (by decide) h1 i
    · exact hasCIsub_false_none ("Addendum") t (by decide) h2 i
    · exact hasCIsub_false_none ("Amendment") t (by decide) h3 i
  simp [labelRegex, hfm]

theorem amendCompile_label : amendCompile labelPatternStr 2 = labelRegex := by
  simp [amendCompile]
  intro hcontra
  exact absurd hcontra (by decide)

/-- Claim C1.  The spec says a header field extracted as the empty string
takes its declared default.  The code applies defaults with
`dict.setdefault`, which fires only when the key is absent: field `F` is in
`bid_info_map`, its pattern matches nothing, so it is stored as `""` and
its default `DF` is NOT applied, while the unmapped field `G` does receive
its default.  This evaluates the embedded pipeline at that failing input. -/
theorem claim_C1_empty_extraction_keeps_empty :
    build_bid_info c1NoMatch [(("F"), ("pf"))] [(("F"), ("DF")), (("G"), ("DG"))]
        [(1, ("tender text"))] = Except.ok [(("F"), ("")), (("G"), ("DG"))]
    ∧ (("" : String) ≠ ("DF")) := by
  constructor
  · rfl
  · decide

/-- Claim C2, counterexample.  The claim says the amendment type label is
the empty string when no label is found; the code's default is the literal
`"Corrigendum/Addendum"`. -/
theorem claim_C2_counterexample :
    (append_amendments [(("a.pdf"), [(1, ("hello world"))])]).map
        (fun r => r.AmendmentType) = [("Corrigendum/Addendum")]
    ∧ (("Corrigendum/Addendum" : String) ≠ ("")) := by
  constructor
  · decide
  · decide

/-- Claim C2, amended.  Each amendment record carries the file's base name,
empty notes and the page count; the type label is `"Corrigendum/Addendum"`
(not `""`) when no page contains any of the three labels in any ASCII case;
the date is `""` when the date search finds nothing; and a document
containing `"Addendum"` and the token `"12/05/2024"` yields
AmendmentType `"Addendum"` and Date `"12/05/2024"`. -/
theorem claim_C2_amended (name : String) (pages : List (Nat × String)) :
    (amend_row name pages).FileName = name
    ∧ (amend_row name pages).Notes = ("")
    ∧ (amend_row name pages).Pages = pages.length
    ∧ ((∀ pt ∈ pages, hasCIsub ("Corrigendum") pt.2 = false
          ∧ hasCIsub ("Addendum") pt.2 = false
          ∧ hasCIsub ("Amendment") pt.2 = false) →
        (amend_row name pages).AmendmentType = ("Corrigendum/Addendum"))
    ∧ (find_first amendCompile datePatternStr pages 2 = none →
        (amend_row name pages).Date = (""))
    ∧ amend_row ("x.pdf") [(1, ("Addendum No. 2 dated 12/05/2024"))]
        = { AmendmentType := ("Addendum"), FileName := ("x.pdf"),
            Date := ("12/05/2024"), Notes := (""), Pages := 1 } := by
  refine ⟨rfl, rfl, rfl, ?_, ?_, by decide⟩
  · intro hsub
    have hnone : find_first amendCompile labelPatternStr pages 2 = none := by
      simp only [find_first, amendCompile_label]
      rw [search_pages_eq_none]
      intro pt hpt
      exact labelRegex_search_none pt.2 (hsub pt hpt).1 (hsub pt hpt).2.1 (hsub pt hpt).2.2
    simp [amend_row, hnone]
  · intro hdate
    simp [amend_row, hdate]

theorem claim_C2_witness :
    (amend_row ("a.pdf") [(1, ("hello"))]).AmendmentType = ("Corrigendum/Addendum")
    ∧ (amend_row ("a.pdf") [(1, ("hello"))]).Date = ("") :=
  ⟨(claim_C2_amended ("a.pdf") [(1, ("hello"))]).2.2.2.1 (by decide),
   (claim_C2_amended ("a.pdf") [(1, ("hello"))]).2.2.2.2.1 (by decide)⟩

/-- Claim C3.  Under flag lists that do not raise, `run_extractors` returns
the concatenation of each directive's rows in declaration order; for an
`"all"`-mode directive the rows are exactly one per `find_all` hit in page
then discovery order, their number is the total match count over all
pages, and each hit's page number is a page of the input whose text
contains that very match. -/
theorem claim_C3_all_mode (compile : String → Nat → Regex)
    (pages : List (Nat × String)) (exts : List Extractor)
    (hfl : ∀ e ∈ exts, flagsOk e.flagsD = true) :
    run_extractors compile pages exts =
      Except.ok (exts.flatMap (directive_rows compile pages))
    ∧ ∀ e ∈ exts, e.modeD = ("all") →
      directive_rows compile pages e =
          (find_all compile e.patternD pages (flagsVal e.flagsD)).map
            (fun pm => mk_row e pm.2 pm.1)
        ∧ (directive_rows compile pages e).length =
            (pages.map (fun pt =>
              ((compile e.patternD (flagsVal e.flagsD)).finditer pt.2).length)).sum
        ∧ ∀ pm ∈ find_all compile e.patternD pages (flagsVal e.flagsD),
            ∃ text, (pm.1, text) ∈ pages
              ∧ pm.2 ∈ (compile e.patternD (flagsVal e.flagsD)).finditer text := by
  refine ⟨run_extractors_ok compile pages exts hfl, ?_⟩
  intro e he hall
  have hshape : directive_rows compile pages e =
      (find_all compile e.patternD pages (flagsVal e.flagsD)).map
        (fun pm => mk_row e pm.2 pm.1) := by
    simp [directive_rows, rows_of, hall]
  refine ⟨hshape, ?_, ?_⟩
  · rw [hshape, List.length_map]
    exact iter_pages_length (compile e.patternD (flagsVal e.flagsD)) pages
  · intro pm hpm
    exact iter_pages_mem (compile e.patternD (flagsVal e.flagsD)) pages pm.1 pm.2 hpm

theorem claim_C3_witness :
    run_extractors c3Rx c3Pages [c3Ext] =
      Except.ok ([c3Ext].flatMap (directive_rows c3Rx c3Pages))
    ∧ (directive_rows c3Rx c3Pages c3Ext).length =
        (c3Pages.map (fun pt =>
          ((c3Rx c3Ext.patternD (flagsVal c3Ext.flagsD)).finditer pt.2).length)).sum :=
  ⟨(claim_C3_all_mode c3Rx c3Pages [c3Ext] (by decide)).1,
   (((claim_C3_all_mode c3Rx c3Pages [c3Ext] (by decide)).2 c3Ext
      (List.mem_cons_self c3Ext []) (by decide)).2).1⟩

/-- Claim C4.  For a non-`"all"` directive whose flags compile to `fl`, if
no page matches then the directive yields `Except.ok []` (no exception);
if `find_first` yields `(pn, m)` then exactly one row is emitted with
SourcePage `pn`, the page list splits at `pn` with every earlier page
search-free, and `m` is the first `finditer` match of that page. -/
theorem claim_C4_first_mode (compile : String → Nat → Regex)
    (pages : List (Nat × String)) (ext : Extractor) (fl : Nat)
    (hmode : ext.modeD ≠ ("all"))
    (hfl : compileFlags ext.flagsD = Except.ok fl)
    (hcoh : ∀ t, (compile ext.patternD fl).search t =
      ((compile ext.patternD fl).finditer t).head?) :
    (find_first compile ext.patternD pages fl = none →
      extractor_rows compile pages ext = Except.ok [])
    ∧ ∀ pn m, find_first compile ext.patternD pages fl = some (pn, m) →
      extractor_rows compile pages ext = Except.ok [mk_row ext m pn]
      ∧ ∃ pre text post, pages = pre ++ (pn, text) :: post
          ∧ (∀ q ∈ pre, (compile ext.patternD fl).search q.2 = none)
          ∧ ((compile ext.patternD fl).finditer text).head? = some m := by
  have hrows : extractor_rows compile pages ext =
      Except.ok (rows_of compile pages ext fl) := by
    simp [extractor_rows, hfl]
  constructor
  · intro hnone
    rw [hrows]
    simp [rows_of, hmode, hnone]
  · intro pn m hsome
    constructor
    · rw [hrows]
      simp [rows_of, hmode, hsome]
    · obtain ⟨pre, text, post, hsplit, hpre, hfound⟩ :=
        search_pages_eq_some (compile ext.patternD fl) pages pn m hsome
      exact ⟨pre, text, post, hsplit, hpre, by rw [← hcoh text]; exact hfound⟩

theorem claim_C4_witness :
    extractor_rows c4Rx [(1, ("miss")), (2, ("hh"))] c4Ext = Except.ok [mk_row c4Ext c4m 2]
    ∧ ∃ pre text post,
        ([(1, ("miss")), (2, ("hh"))] : List (Nat × String)) = pre ++ (2, text) :: post
        ∧ (∀ q ∈ pre, (c4Rx c4Ext.patternD 2).search q.2 = none)
        ∧ ((c4Rx c4Ext.patternD 2).finditer text).head? = some c4m :=
  (claim_C4_first_mode c4Rx [(1, ("miss")), (2, ("hh"))] c4Ext 2 (by decide) rfl
    (fun t => rfl)).2 2 c4m rfl

/-- Claim C5.  The spec (and the function's own docstring) say template
`"\x7b0\x7d MW"` over one group matching `"250"` renders `"250 MW"`.  The call
`value_expr.format(**fmt_dict, **\x7bstr(k): v ...\x7d)` passes the same keyword
twice, raising `TypeError` for every nonempty group mapping (and a lone
`\x7b0\x7d` would be a positional reference anyway), so the code always falls
back to the first group's cleaned text: the row value is `"250"`. -/
theorem claim_C5_template_never_renders_groups :
    render_value ("{0} MW")
        { matched := ("250"), groups := [some ("250")], named := [] } = ("250")
    ∧ (("250" : String) ≠ ("250 MW")) := by
  constructor
  · decide
  · decide

/-- Claim C6, counterexample.  The claim says every unknown flag name is
ignored and contributes no bits.  But `getattr(re, "compile", 0)` returns
the function `re.compile`, and `fl |= <function>` raises `TypeError`;
and `getattr(re, "_MAXCACHE", 0)` is the integer 512, which is OR-ed in. -/
theorem claim_C6_counterexample :
    compileFlags [("compile")] = Except.error PyErr.typeErr
    ∧ compileFlags [("_MAXCACHE")] = Except.ok 512 :=
  ⟨rfl, rfl⟩

/-- Claim C6, amended.  When no listed name is bound to a non-integer `re`
attribute, the flag word is the bitwise-OR of the integer values the `re`
module binds to the listed names; a name not bound in `re` contributes
nothing and raises nothing; the three documented flags OR to 2|8|16 = 26. -/
theorem claim_C6_amended :
    (∀ fs : List String, flagsOk fs = true → compileFlags fs = Except.ok (flagsVal fs))
    ∧ (∀ (fs1 fs2 : List String) (f : String), re_getattr f = none →
        compileFlags (fs1 ++ f :: fs2) = compileFlags (fs1 ++ fs2))
    ∧ compileFlags [("IGNORECASE"), ("MULTILINE"), ("DOTALL")] = Except.ok 26 :=
  ⟨fun fs h => compileFlags_ok fs h,
   fun fs1 fs2 f hf => foldE_orFlag_skip fs1 f fs2 hf 0,
   rfl⟩

theorem claim_C6_witness :
    compileFlags [("IGNORECASE"), ("FOO")] =
      Except.ok (flagsVal [("IGNORECASE"), ("FOO")])
    ∧ compileFlags [("IGNORECASE"), ("UNKNOWNNAME"), ("DOTALL")] =
        compileFlags [("IGNORECASE"), ("DOTALL")] :=
  ⟨claim_C6_amended.1 [("IGNORECASE"), ("FOO")] (by decide),
   claim_C6_amended.2.1 [("IGNORECASE")] [("DOTALL")] ("UNKNOWNNAME") (by decide)⟩

/-- Claim C7.  Starting from any BID_INFO table with unique field names,
any upsert keeps field names unique, and upserting the same field twice
leaves exactly one row for that field holding the second value. -/
theorem claim_C7_upsert_unique (df mp : List (String × String)) (f v1 v2 : String)
    (hdf : (df.map Prod.fst).Nodup) :
    ((upsert_bid_info df mp).map Prod.fst).Nodup
    ∧ (upsert_bid_info (upsert_bid_info df [(f, v1)]) [(f, v2)]).filter
        (fun r => decide (r.1 = f)) = [(f, v2)] :=
  ⟨upsert_keys_nodup mp df hdf,
   upsert_single_filter f v2 _ (upsert_single_nodup df f v1 hdf)⟩

theorem claim_C7_witness :
    ((upsert_bid_info [(("A"), ("1"))] [(("B"), ("2"))]).map Prod.fst).Nodup
    ∧ (upsert_bid_info (upsert_bid_info [(("A"), ("1"))] [(("F"), ("x"))])
        [(("F"), ("y"))]).filter (fun r => decide (r.1 = ("F"))) = [(("F"), ("y"))] :=
  claim_C7_upsert_unique [(("A"), ("1"))] [(("B"), ("2"))] ("F") ("x") ("y") (by decide)

/-- Claim C8.  The header-field loop takes `m.group(1)`: when some mapped
pattern's first match has no capture group, the whole extraction raises an
uncaught `IndexError`; when every match has a group, the loop satisfies its
contract, storing group 1's cleaned text on a match and `""` otherwise. -/
theorem claim_C8_group1_contract (compile : String → Nat → Regex)
    (map : List (String × String)) (pages : List (Nat × String)) :
    ((∃ fp ∈ map, ∃ pn m,
        find_first compile fp.2 pages bidInfoFlags = some (pn, m) ∧ m.groups = []) →
      bid_info_extract compile map pages = Except.error PyErr.indexErr)
    ∧ ((∀ fp ∈ map, ∀ pn m,
        find_first compile fp.2 pages bidInfoFlags = some (pn, m) → m.groups ≠ []) →
      bid_info_extract compile map pages =
        Except.ok (map.map (fun fp => (fp.1, bid_field_value compile pages fp.2)))) := by
  constructor
  · intro hbad
    exact bid_extract_error compile pages map hbad []
  · intro hgood
    have h := bid_extract_ok compile pages map hgood []
    simpa [bid_info_extract] using h

theorem claim_C8_witness :
    bid_info_extract c8ZeroGroup [(("F"), ("p"))] [(1, ("x"))] =
      Except.error PyErr.indexErr :=
  (claim_C8_group1_contract c8ZeroGroup [(("F"), ("p"))] [(1, ("x"))]).1
    ⟨(("F"), ("p")), List.mem_cons_self _ _, 1,
      { matched := ("x"), groups := [], named := [] }, rfl, rfl⟩

/-- Claim C9.  Whenever the pattern declares at least one capture group and
the first group did not participate (`None`), `render_value` returns the
empty string — `clean_text(None)` — and never the cleaned full span,
whatever the template is. -/
theorem claim_C9_unparticipating_first_group (value_expr : String) (m : Match)
    (rest : List (Option String)) (hg : m.groups = none :: rest) :
    render_value value_expr m = ("") := by
  have hpos : (m.groups.enum.map (fun ig => (toString ig.1, clean_text ig.2))) ≠ [] := by
    intro hnil
    have hlen := congrArg List.length hnil
    simp [hg] at hlen
  have hfm : fmtMapping m ≠ [] := fmt_dict_ne_nil m.named _ hpos
  obtain ⟨kv, l, hfd⟩ := List.exists_cons_of_ne_nil hfm
  simp only [render_value]
  rw [hfd, mergeKwargs_self_error]
  dsimp only
  rw [hg]
  rfl

theorem claim_C9_witness :
    render_value ("{name} x")
      { matched := ("abc def"), groups := [none], named := [(("name"), none)] } = ("") :=
  claim_C9_unparticipating_first_group ("{name} x")
    { matched := ("abc def"), groups := [none], named := [(("name"), none)] } [] rfl

/-- Claim C10.  A directive whose flags compile is never rejected for its
mode: its rows exist for any mode string; and any mode other than exactly
`"all"` — `"ALL"`, an absent key, arbitrary text — behaves identically to
mode `"first"`. -/
theorem claim_C10_mode_fallthrough (compile : String → Nat → Regex)
    (pages : List (Nat × String)) (ext : Extractor)
    (hfl : flagsOk ext.flagsD = true) :
    (∃ rows, extractor_rows compile pages ext = Except.ok rows)
    ∧ (ext.modeD ≠ ("all") →
      extractor_rows compile pages ext =
        extractor_rows compile pages { ext with mode := some ("first") }) := by
  constructor
  · exact ⟨_, extractor_rows_ok compile pages ext hfl⟩
  · intro hmode
    rw [extractor_rows_ok compile pages ext hfl,
        extractor_rows_ok compile pages { ext with mode := some ("first") } hfl]
    have h1 : rows_of compile pages ext (flagsVal ext.flagsD) =
        rows_of compile pages { ext with mode := some ("first") }
          (flagsVal ext.flagsD) := by
      simp only [rows_of]
      rw [if_neg hmode]
      rfl
    rw [h1]
    rfl

theorem claim_C10_witness :
    extractor_rows c10Rx [(1, ("t"))] c10Ext =
      extractor_rows c10Rx [(1, ("t"))] { c10Ext with mode := some ("first") } :=
  (claim_C10_mode_fallthrough c10Rx [(1, ("t"))] c10Ext (by decide)).2 (by decide)

end TenderTag
